import Mathlib

/-!
Shallow embedding of `borgwarner_scraper.py` and verification of its
specification claims.

External collaborators (HTTP transport, the BeautifulSoup parser, the
embedding model, the Chroma vector store) are modelled at the interface the
scraper consumes them at: fetch outcomes become an inductive type; parsed
markup becomes structured card data; the vector store becomes a list of
documents; embedding computation and store writes become explicit effects.
All control flow of the scraper itself is translated line by line.
-/

namespace BorgWarner

/-! ## Politeness gate (`is_scraping_allowed`, lines 34-67)

The outcome of one crawl-policy (robots.txt) fetch, as distinguished by the
`try`/`except` structure of `is_scraping_allowed`:
* `ok b` — `requests.get` returned a 2xx response, `raise_for_status` did not
  raise, the robots file parsed, and `can_fetch("*", PRESS_RELEASES_URL)`
  evaluated to `b`;
* `httpError s` — `raise_for_status` raised `requests.exceptions.HTTPError`
  for a response with status code `s`;
* `transportError` — `requests.get` itself raised (timeout, DNS failure,
  connection error);
* `parseError` — parsing or evaluating the robots file raised. -/
inductive FetchResult where
  | ok (robotsAllows : Bool)
  | httpError (status : Nat)
  | transportError
  | parseError
deriving DecidableEq, Repr

/-- A fetch outcome other than a parsed 2xx response is a fetch failure. -/
def FetchResult.isFailure : FetchResult → Bool
  | .ok _ => false
  | _ => true

/-- The outcome of one whole run of `is_scraping_allowed`: either the verified
fetch (`verify=True`, line 39) ran to one of the four outcomes directly, or it
raised `requests.exceptions.SSLError` and the unverified retry (`verify=False`,
line 49) ran to one of the four outcomes. The retry cannot itself SSL-fail
because verification is off. -/
inductive GateOutcome where
  | direct (r : FetchResult)
  | sslRetry (r : FetchResult)
deriving DecidableEq, Repr

/-- `is_scraping_allowed` (lines 34-67), as a function of the fetch outcome.
On the direct path: a parsed response yields `can_fetch`'s verdict (line 44);
an HTTP error returns `status == 404` (lines 58-63: 404 means "no robots.txt,
assume allowed", anything else is `False`); every other exception lands in the
final `except Exception` and returns `False` (lines 65-67).
On the SSL-retry path: a parsed response yields `can_fetch`'s verdict
(line 53); every exception of the retry — HTTP errors included, a 404 among
them — lands in the inner `except Exception` and returns `False`
(lines 54-56). -/
def is_scraping_allowed : GateOutcome → Bool
  | .direct (.ok b) => b
  | .direct (.httpError s) => s == 404
  | .direct .transportError => false
  | .direct .parseError => false
  | .sslRetry (.ok b) => b
  | .sslRetry (.httpError _) => false
  | .sslRetry .transportError => false
  | .sslRetry .parseError => false

/-! ## Data model -/

/-- One entry of the Chroma vector store, as the scraper writes it
(lines 85-89): the page content plus the `{title, date, url}` metadata.
`title` and `date` are optional because the listing extraction may have
produced `None` for them. -/
structure Document where
  page_content : String
  title : Option String
  date : Option String
  url : String
deriving DecidableEq, Repr

/-- Observable side effects of a store commit: an embedding computation and a
vector-store write (both performed by `vector_db.add_documents`, line 89). -/
inductive Effect where
  | embed (text : String)
  | write (doc : Document)
deriving DecidableEq, Repr

/-- `vector_db.get(where={"url": u})["documents"]` is non-empty (lines 81-82):
some stored document's metadata url equals `u`. -/
def hasUrl (db : List Document) (u : String) : Bool :=
  db.any (fun d => d.url == u)

/-- `store_in_vector_db` (lines 77-90): if a document with this url already
exists, return without touching the store (lines 81-84); otherwise build the
`Document` and `add_documents` it, which embeds the content and appends the
entry (lines 85-89). Returns the new store plus the effects issued. -/
def store_in_vector_db (title date : Option String) (content_url content : String)
    (db : List Document) : List Document × List Effect :=
  if hasUrl db content_url then
    (db, [])
  else
    let doc : Document :=
      { page_content := content, title := title, date := date, url := content_url }
    (db ++ [doc], [Effect.embed content, Effect.write doc])

/-- Follows the spec's words (§4.5 DedupIndex): `commit_if_new(article) -> bool`
queries the store for an existing entry whose metadata url equals the
candidate's url; non-empty ⇒ skip and return `false`; empty ⇒ embed and store,
returning `true`. Stated separately from `store_in_vector_db` so the two can
be compared. -/
def commit_if_new (title date : Option String) (url content : String)
    (db : List Document) : Bool × List Document :=
  if hasUrl db url then
    (false, db)
  else
    (true, db ++ [{ page_content := content, title := title, date := date, url := url }])

/-! ## Whitespace helpers (Python string operations used by the scraper) -/

/-- The characters `str.strip()` removes in Python (ASCII whitespace). -/
def isPySpace (c : Char) : Bool :=
  c == ' ' || c == '\t' || c == '\n' || c == '\r' || c == '\x0b' || c == '\x0c'

/-- Python `s.strip()`: drop leading and trailing whitespace. -/
def pyStrip (s : String) : String :=
  ⟨((s.data.dropWhile isPySpace).reverse.dropWhile isPySpace).reverse⟩

/-- Python `s.replace(c, "")` for a one-character pattern `c`: delete every
occurrence of the character. -/
def pyReplaceAll (c : Char) (s : String) : String :=
  ⟨s.data.filter (fun a => a != c)⟩

/-! ## Article-page extraction (`parse_press_release_content`, lines 169-187) -/

/-- BeautifulSoup's `content_div.stripped_strings`: each text node of the
container stripped, with nodes that strip to nothing omitted. -/
def strippedStrings (nodes : List String) : List String :=
  (nodes.map pyStrip).filter (fun s => s != "")

/-- `parse_press_release_content` (lines 169-187), as a function of the
article page's content container: `none` models an absent
`div.sfnewsContent.sfcontent` container (line 181, and equally a fetch that
raised, lines 185-187); `some nodes` models a present container with text
nodes `nodes`. A present container yields
`" ".join(content_div.stripped_strings).replace("\n", "").replace("\r", "")`
(line 179): the stripped nodes joined by single spaces, then every newline
and carriage-return character deleted. -/
def parse_press_release_content (container : Option (List String)) : Option String :=
  match container with
  | none => none
  | some nodes =>
      some (pyReplaceAll '\r' (pyReplaceAll '\n'
        (String.intercalate " " (strippedStrings nodes))))

/-- Follows the spec's words (§4.2 `extract_body`): concatenate the trimmed
text nodes, collapsing embedded newlines and carriage returns into single
spaces. Stated separately so it can be compared with
`parse_press_release_content`. -/
def extract_body_spec (nodes : List String) : String :=
  ⟨(String.intercalate " " (strippedStrings nodes)).data.map
    (fun c => if c == '\n' || c == '\r' then ' ' else c)⟩

/-! ## Listing-page extraction (`get_press_release_contents`, lines 114-166) -/

/-- The `h2.bw-global-list-h3` title element of one listing card:
`text` is `get_text(strip=True)`'s output, `href` the `href` attribute of the
`<a>` found inside it by `title_tag.select_one("a")` (`none` when there is no
`<a>` or it carries no `href`). -/
structure TitleTag where
  text : String
  href : Option String
deriving DecidableEq, Repr

/-- One `div.column.widget-block` card of a listing page, as the scraper
reads it: the optional title element (the article link lives inside it) and
the optional `div.h5.margin-bottom-0` date element's stripped text. -/
structure Card where
  titleTag : Option TitleTag
  dateTag : Option String
deriving DecidableEq, Repr

/-- The three fields extracted from one listing card (spec §4.2
`extract_candidates`). -/
structure Candidate where
  title : Option String
  publication_date : Option String
  article_url : Option String
deriving DecidableEq, Repr

/-- Field extraction for one card (lines 129-148). `resolve` models
`urljoin(BASE_URL, ·)` from `urllib.parse`.
* title: `title_tag.get_text(strip=True).replace("\r", "")` when the title
  element exists, else `None` (lines 129-134);
* date: the date element's stripped text, else `None` (lines 136-141);
* url: `a_tag = title_tag.select_one("a") if title_tag else None`; the url is
  `urljoin(BASE_URL, a_tag["href"])` only when `a_tag` exists and its `href`
  is truthy (an empty `href` string is falsy in Python), else `None`
  (lines 143-148). -/
def extractCandidate (resolve : String → String) (card : Card) : Candidate :=
  let title := match card.titleTag with
    | some t => some (pyReplaceAll '\r' t.text)
    | none => none
  let publication_date := match card.dateTag with
    | some d => some d
    | none => none
  let a_href := match card.titleTag with
    | some t => t.href
    | none => none
  let article_url := match a_href with
    | some h => if h == "" then none else some (resolve h)
    | none => none
  { title := title, publication_date := publication_date, article_url := article_url }

/-- Listing extraction over every card on the page: the loop of lines 128-148
extracts each card's fields independently of the other cards. -/
def extract_candidates (resolve : String → String) (cards : List Card) : List Candidate :=
  cards.map (extractCandidate resolve)

/-- One entry of the page's result list `contents` (lines 156-161), which
`main` extends the run snapshot `articles` with (line 232). -/
structure PressRec where
  publication_date : Option String
  title : Option String
  content_url : String
  content : String
deriving DecidableEq, Repr

/-- The loop body of `get_press_release_contents` for one card
(lines 128-161), acting on the state `(vector store, page result list)`.
`fetchBody` models `parse_press_release_content(content_url)`: one bounded
fetch plus body extraction for the article url.
With `content = parse_press_release_content(content_url) if content_url else
None` (line 150): `if content:` store it (lines 152-153); `if content and`
the url is not yet in this page's `contents` (line 155), append the record
(lines 156-161). An absent or empty (falsy) content leaves both untouched. -/
def processCard (resolve : String → String) (fetchBody : String → Option String)
    (card : Card) (st : List Document × List PressRec) :
    List Document × List PressRec :=
  match (extractCandidate resolve card).article_url with
  | none => st
  | some u =>
      match fetchBody u with
      | none => st
      | some c =>
          if c == "" then st
          else
            ((store_in_vector_db (extractCandidate resolve card).title
                (extractCandidate resolve card).publication_date u c st.1).1,
             if st.2.any (fun r => r.content_url == u) then st.2
             else st.2 ++ [{ publication_date := (extractCandidate resolve card).publication_date,
                             title := (extractCandidate resolve card).title,
                             content_url := u, content := c }])

/-- `get_press_release_contents` (lines 114-166) for one listing page whose
cards parsed to `cards`: start from the ambient vector store `db` and an empty
`contents` list, run the card loop, and return the final store and the page's
result list. -/
def get_press_release_contents (resolve : String → String)
    (fetchBody : String → Option String) (cards : List Card)
    (db : List Document) : List Document × List PressRec :=
  cards.foldl (fun st card => processCard resolve fetchBody card st) (db, [])

/-- The body content the loop computes for one card:
`parse_press_release_content(content_url) if content_url else None`
(line 150). -/
def cardContent (resolve : String → String) (fetchBody : String → Option String)
    (card : Card) : Option String :=
  match (extractCandidate resolve card).article_url with
  | some u => fetchBody u
  | none => none

/-- The `(url, content)` a card contributes when its content is truthy:
`some (u, c)` exactly when the card resolves to url `u` and its fetched body
is a non-empty string `c`. -/
def cardStoreable (resolve : String → String) (fetchBody : String → Option String)
    (card : Card) : Option (String × String) :=
  match (extractCandidate resolve card).article_url with
  | none => none
  | some u =>
      match fetchBody u with
      | none => none
      | some c => if c == "" then none else some (u, c)

/-- The vector-store component of one loop iteration (the page result list
does not feed back into the store update). -/
def dbStep (resolve : String → String) (fetchBody : String → Option String)
    (card : Card) (db : List Document) : List Document :=
  (processCard resolve fetchBody card (db, [])).1

/-- The vector-store evolution across a whole listing page. -/
def foldDb (resolve : String → String) (fetchBody : String → Option String)
    (cards : List Card) (db : List Document) : List Document :=
  cards.foldl (fun d card => dbStep resolve fetchBody card d) db

/-! ## The page walk of `main` (lines 220-235) -/

/-- The page walk of `main` (lines 224-233) started at cursor `page`,
returning the listing pages it fetches, in order. `pages n` is the result
list `get_press_release_contents` returns for page `n`. While
`current_page <= max_page` the page is fetched; an empty result breaks the
loop (lines 228-230), otherwise the cursor advances. -/
def walkFrom (pages : Nat → List PressRec) (maxPage : Nat) (page : Nat) :
    List Nat :=
  if h : page ≤ maxPage then
    if pages page = [] then [page]
    else page :: walkFrom pages maxPage (page + 1)
  else []
termination_by maxPage + 1 - page
decreasing_by
  simp_wf
  omega

/-- The page-result append guard of lines 155-161, isolated: append the
record for `(u, c)` unless an entry with `content_url = u` is already in this
page's result list. `processCard`'s second component equals this whenever the
card's content is truthy (`processCard_snd` below). -/
def pageAppend (cand : Candidate) (u c : String) (cs : List PressRec) : List PressRec :=
  if cs.any (fun r => r.content_url == u) then cs
  else cs ++ [{ publication_date := cand.publication_date, title := cand.title,
                content_url := u, content := c }]

/-- A vector store already holding the article url — e.g. left over from a
prior ingestion run. -/
def preloadedDb : List Document :=
  [{ page_content := "old body", title := some "Old", date := some "2020-01-01",
     url := "https://www.borgwarner.com/a" }]

/-- A listing card whose link resolves to the url already in `preloadedDb`. -/
def sampleCard : Card :=
  { titleTag := some { text := "X", href := some "/a" }, dateTag := some "2024-01-01" }

/-- A concrete `urljoin(BASE_URL, ·)` for site-relative links. -/
def sampleResolve : String → String :=
  fun h => "https://www.borgwarner.com" ++ h

/-- An article fetch that resolves every url to the body "hello world". -/
def sampleFetch : String → Option String :=
  fun _ => some "hello world"

/-! ## Query path (`query_knowledge_base`, lines 93-111) -/

/-- One record of `query_knowledge_base`'s result list (lines 103-111). -/
structure QueryResult where
  title : Option String
  date : Option String
  url : String
  score : ℚ
deriving DecidableEq, Repr

/-- Python `round(score, 2)`: round to two decimal places. Scores are
modelled as rationals; the vector store's floating-point scores are an
external collaborator detail. -/
def round2 (q : ℚ) : ℚ :=
  ((round (q * 100) : ℤ) : ℚ) / 100

/-- `query_knowledge_base` (lines 93-111), as a function of what
`vector_db.similarity_search_with_score(query_text, k=top_k)` returned: an
empty result returns `[]` (lines 99-101); otherwise each `(document, score)`
pair is mapped, in order, to its `{title, date, url, score}` record with the
score rounded to two decimals (lines 103-111). -/
def query_knowledge_base (results : List (Document × ℚ)) : List QueryResult :=
  if results.isEmpty then []
  else results.map (fun p =>
    { title := p.1.title, date := p.1.date, url := p.1.url, score := round2 p.2 })

end BorgWarner

namespace BorgWarner

/-! ## Claim C2 and C10: the politeness gate fails closed -/

/-- C2: the politeness gate fails closed. For every outcome of the
crawl-policy fetch, a not-found (404) response makes `is_scraping_allowed`
return `true`, while any other fetch failure (timeout, DNS failure, non-404
HTTP error, parse error) makes it return `false`. -/
theorem gate_fail_closed (r : FetchResult) :
    (r = FetchResult.httpError 404 → is_scraping_allowed (GateOutcome.direct r) = true) ∧
    (r.isFailure = true → r ≠ FetchResult.httpError 404 →
      is_scraping_allowed (GateOutcome.direct r) = false) := by
  constructor
  · rintro rfl
    rfl
  · intro hfail hne
    cases r with
    | ok b => simp [FetchResult.isFailure] at hfail
    | httpError s =>
        have hs : s ≠ 404 := fun h => hne (by rw [h])
        simpa [is_scraping_allowed] using hs
    | transportError => rfl
    | parseError => rfl

/-- Witness for C2: a 404 yields `true`; a transport failure yields `false`. -/
theorem gate_fail_closed_witness :
    is_scraping_allowed (GateOutcome.direct (FetchResult.httpError 404)) = true ∧
    is_scraping_allowed (GateOutcome.direct FetchResult.transportError) = false :=
  ⟨(gate_fail_closed (FetchResult.httpError 404)).1 rfl,
   (gate_fail_closed FetchResult.transportError).2 rfl (by decide)⟩

/-- C10: on the certificate-verification-downgrade retry path, every failure
of the unverified fetch — a 404 included — yields `false`; `true` arises only
from a verified fetch that parsed and allowed, a verified fetch that reached a
404, or an unverified retry that parsed and allowed. So the 404-means-allowed
interpretation applies only to the verified fetch. -/
theorem ssl_retry_fail_closed :
    (∀ r : FetchResult, r.isFailure = true →
      is_scraping_allowed (GateOutcome.sslRetry r) = false) ∧
    is_scraping_allowed (GateOutcome.sslRetry (FetchResult.httpError 404)) = false ∧
    (∀ o : GateOutcome, is_scraping_allowed o = true ↔
      o = GateOutcome.direct (FetchResult.ok true) ∨
      o = GateOutcome.direct (FetchResult.httpError 404) ∨
      o = GateOutcome.sslRetry (FetchResult.ok true)) := by
  refine ⟨?_, rfl, ?_⟩
  · intro r hfail
    cases r with
    | ok b => simp [FetchResult.isFailure] at hfail
    | httpError s => rfl
    | transportError => rfl
    | parseError => rfl
  · intro o
    rcases o with r | r
    · cases r with
      | ok b => cases b <;> simp [is_scraping_allowed]
      | httpError s =>
          simp only [is_scraping_allowed]
          constructor
          · intro h
            have hs : s = 404 := by simpa using h
            subst hs
            simp
          · rintro (h | h | h) <;> simp_all
      | transportError => simp [is_scraping_allowed]
      | parseError => simp [is_scraping_allowed]
    · cases r with
      | ok b => cases b <;> simp [is_scraping_allowed]
      | httpError s => simp [is_scraping_allowed]
      | transportError => simp [is_scraping_allowed]
      | parseError => simp [is_scraping_allowed]

/-- Witness for C10: the retry path turns even a 404 into `false`. -/
theorem ssl_retry_fail_closed_witness :
    is_scraping_allowed (GateOutcome.sslRetry (FetchResult.httpError 404)) = false ∧
    is_scraping_allowed (GateOutcome.sslRetry FetchResult.transportError) = false :=
  ⟨ssl_retry_fail_closed.2.1,
   ssl_retry_fail_closed.1 FetchResult.transportError rfl⟩

/-! ## Store lemmas -/

theorem hasUrl_store_self (t d : Option String) (u c : String) (db : List Document) :
    hasUrl (store_in_vector_db t d u c db).1 u = true := by
  unfold store_in_vector_db
  cases h : hasUrl db u
  · simp only [h, Bool.false_eq_true, if_false]
    simp [hasUrl, List.any_append]
  · simp [h]

theorem hasUrl_store_mono (t d : Option String) (u c v : String) (db : List Document)
    (h : hasUrl db v = true) :
    hasUrl (store_in_vector_db t d u c db).1 v = true := by
  unfold store_in_vector_db
  cases hu : hasUrl db u
  · simp only [hu, Bool.false_eq_true, if_false]
    simp only [hasUrl] at h ⊢
    simp [List.any_append, h]
  · simpa [hu] using h

theorem store_noop (t d : Option String) (u c : String) (db : List Document)
    (h : hasUrl db u = true) :
    store_in_vector_db t d u c db = (db, []) := by
  unfold store_in_vector_db
  simp [h]

theorem hasUrl_false_not_mem (db : List Document) (u : String)
    (h : hasUrl db u = false) : u ∉ db.map Document.url := by
  intro hm
  rcases List.mem_map.1 hm with ⟨d, hd, hdu⟩
  have hany : db.any (fun x => x.url == u) = true :=
    List.any_eq_true.2 ⟨d, hd, by simp [hdu]⟩
  rw [hasUrl] at h
  rw [hany] at h
  exact Bool.true_eq_false.mp h

theorem store_nodup (t d : Option String) (u c : String) (db : List Document)
    (h : (db.map Document.url).Nodup) :
    (((store_in_vector_db t d u c db).1).map Document.url).Nodup := by
  unfold store_in_vector_db
  cases hu : hasUrl db u
  · simp only [hu, Bool.false_eq_true, if_false]
    simp only [List.map_append, List.map_cons, List.map_nil]
    rw [List.nodup_append]
    refine ⟨h, List.nodup_singleton u, ?_⟩
    intro a ha hb
    rcases List.mem_singleton.1 hb with rfl
    exact hasUrl_false_not_mem db a hu ha
  · simpa [hu] using h

/-! ## Loop-body lemmas for `get_press_release_contents` -/

theorem processCard_eq (resolve : String → String) (fetchBody : String → Option String)
    (card : Card) (st : List Document × List PressRec) :
    processCard resolve fetchBody card st =
      match cardStoreable resolve fetchBody card with
      | none => st
      | some (u, c) =>
          ((store_in_vector_db (extractCandidate resolve card).title
              (extractCandidate resolve card).publication_date u c st.1).1,
           if st.2.any (fun r => r.content_url == u) then st.2
           else st.2 ++ [{ publication_date := (extractCandidate resolve card).publication_date,
                           title := (extractCandidate resolve card).title,
                           content_url := u, content := c }]) := by
  cases hu : (extractCandidate resolve card).article_url with
  | none => simp [processCard, cardStoreable, hu]
  | some u =>
      cases hb : fetchBody u with
      | none => simp [processCard, cardStoreable, hu, hb]
      | some c =>
          by_cases hc : c = "" <;>
            simp [processCard, cardStoreable, hu, hb, hc]

theorem dbStep_eq (resolve : String → String) (fetchBody : String → Option String)
    (card : Card) (db : List Document) :
    dbStep resolve fetchBody card db =
      match cardStoreable resolve fetchBody card with
      | none => db
      | some (u, c) =>
          (store_in_vector_db (extractCandidate resolve card).title
            (extractCandidate resolve card).publication_date u c db).1 := by
  unfold dbStep
  rw [processCard_eq]
  cases cardStoreable resolve fetchBody card with
  | none => rfl
  | some uc => rfl

theorem processCard_fst (resolve : String → String) (fetchBody : String → Option String)
    (card : Card) (st : List Document × List PressRec) :
    (processCard resolve fetchBody card st).1 = dbStep resolve fetchBody card st.1 := by
  rw [processCard_eq, dbStep_eq]
  cases cardStoreable resolve fetchBody card with
  | none => rfl
  | some uc => rfl

theorem foldDb_cons (resolve : String → String) (fetchBody : String → Option String)
    (card : Card) (rest : List Card) (db : List Document) :
    foldDb resolve fetchBody (card :: rest) db
      = foldDb resolve fetchBody rest (dbStep resolve fetchBody card db) := rfl

theorem foldl_processCard_fst (resolve : String → String)
    (fetchBody : String → Option String) (cards : List Card) :
    ∀ st : List Document × List PressRec,
      (cards.foldl (fun st card => processCard resolve fetchBody card st) st).1
        = foldDb resolve fetchBody cards st.1 := by
  induction cards with
  | nil => intro st; rfl
  | cons card rest ih =>
      intro st
      simp only [List.foldl_cons, foldDb_cons]
      have h := ih (processCard resolve fetchBody card st)
      rw [processCard_fst] at h
      exact h

theorem get_press_release_contents_fst (resolve : String → String)
    (fetchBody : String → Option String) (cards : List Card) (db : List Document) :
    (get_press_release_contents resolve fetchBody cards db).1
      = foldDb resolve fetchBody cards db :=
  foldl_processCard_fst resolve fetchBody cards (db, [])

theorem hasUrl_dbStep_mono (resolve : String → String)
    (fetchBody : String → Option String) (card : Card) (db : List Document)
    (v : String) (h : hasUrl db v = true) :
    hasUrl (dbStep resolve fetchBody card db) v = true := by
  rw [dbStep_eq]
  cases cardStoreable resolve fetchBody card with
  | none => exact h
  | some uc =>
      obtain ⟨u, c⟩ := uc
      exact hasUrl_store_mono _ _ u c v db h

theorem hasUrl_dbStep_self (resolve : String → String)
    (fetchBody : String → Option String) (card : Card) (db : List Document)
    (u c : String) (h : cardStoreable resolve fetchBody card = some (u, c)) :
    hasUrl (dbStep resolve fetchBody card db) u = true := by
  rw [dbStep_eq, h]
  exact hasUrl_store_self _ _ u c db

theorem dbStep_noop (resolve : String → String) (fetchBody : String → Option String)
    (card : Card) (db : List Document)
    (h : ∀ u c, cardStoreable resolve fetchBody card = some (u, c) → hasUrl db u = true) :
    dbStep resolve fetchBody card db = db := by
  rw [dbStep_eq]
  cases hs : cardStoreable resolve fetchBody card with
  | none => rfl
  | some uc =>
      obtain ⟨u, c⟩ := uc
      show (store_in_vector_db (extractCandidate resolve card).title
        (extractCandidate resolve card).publication_date u c db).1 = db
      rw [store_noop _ _ u c db (h u c hs)]

theorem dbStep_nodup (resolve : String → String) (fetchBody : String → Option String)
    (card : Card) (db : List Document) (h : (db.map Document.url).Nodup) :
    ((dbStep resolve fetchBody card db).map Document.url).Nodup := by
  rw [dbStep_eq]
  cases cardStoreable resolve fetchBody card with
  | none => exact h
  | some uc =>
      obtain ⟨u, c⟩ := uc
      exact store_nodup _ _ u c db h

theorem hasUrl_foldDb_mono (resolve : String → String)
    (fetchBody : String → Option String) (cards : List Card) :
    ∀ (db : List Document) (v : String), hasUrl db v = true →
      hasUrl (foldDb resolve fetchBody cards db) v = true := by
  induction cards with
  | nil => intro db v h; exact h
  | cons card rest ih =>
      intro db v h
      rw [foldDb_cons]
      exact ih _ v (hasUrl_dbStep_mono resolve fetchBody card db v h)

theorem foldDb_covers (resolve : String → String)
    (fetchBody : String → Option String) (cards : List Card) :
    ∀ (db : List Document) (card : Card), card ∈ cards →
      ∀ u c, cardStoreable resolve fetchBody card = some (u, c) →
        hasUrl (foldDb resolve fetchBody cards db) u = true := by
  induction cards with
  | nil => intro db card hmem; cases hmem
  | cons c0 rest ih =>
      intro db card hmem u c hs
      rw [foldDb_cons]
      rcases List.mem_cons.1 hmem with h | h
      · subst h
        exact hasUrl_foldDb_mono resolve fetchBody rest _ u
          (hasUrl_dbStep_self resolve fetchBody card db u c hs)
      · exact ih _ card h u c hs

theorem foldDb_noop (resolve : String → String)
    (fetchBody : String → Option String) (cards : List Card) :
    ∀ (db : List Document),
      (∀ card ∈ cards, ∀ u c, cardStoreable resolve fetchBody card = some (u, c) →
        hasUrl db u = true) →
      foldDb resolve fetchBody cards db = db := by
  induction cards with
  | nil => intro db _; rfl
  | cons c0 rest ih =>
      intro db h
      rw [foldDb_cons,
        dbStep_noop resolve fetchBody c0 db (fun u c hs => h c0 (List.mem_cons_self c0 rest) u c hs)]
      exact ih db (fun card hm u c hs => h card (List.mem_cons_of_mem c0 hm) u c hs)

theorem foldDb_nodup (resolve : String → String)
    (fetchBody : String → Option String) (cards : List Card) :
    ∀ (db : List Document), (db.map Document.url).Nodup →
      ((foldDb resolve fetchBody cards db).map Document.url).Nodup := by
  induction cards with
  | nil => intro db h; exact h
  | cons card rest ih =>
      intro db h
      rw [foldDb_cons]
      exact ih _ (dbStep_nodup resolve fetchBody card db h)

/-! ## Claim C1: ingestion is idempotent on the KnowledgeBase -/

/-- C1: ingestion is idempotent with respect to the KnowledgeBase. Running the
listing ingestion twice over the same cards leaves the vector store exactly as
one run leaves it; a second commit attempt for a url already present returns
the store untouched (so previously stored title, date and content are never
overwritten); and the store's urls stay unique across ingestion. -/
theorem ingestion_idempotent (resolve : String → String)
    (fetchBody : String → Option String) (cards : List Card) (db : List Document)
    (t d : Option String) (u c : String) :
    ((get_press_release_contents resolve fetchBody cards
        (get_press_release_contents resolve fetchBody cards db).1).1
      = (get_press_release_contents resolve fetchBody cards db).1)
    ∧ (hasUrl db u = true → (store_in_vector_db t d u c db).1 = db)
    ∧ ((db.map Document.url).Nodup →
        (((get_press_release_contents resolve fetchBody cards db).1).map Document.url).Nodup) := by
  refine ⟨?_, ?_, ?_⟩
  · rw [get_press_release_contents_fst, get_press_release_contents_fst]
    exact foldDb_noop resolve fetchBody cards _
      (fun card hm u' c' hs => foldDb_covers resolve fetchBody cards db card hm u' c' hs)
  · intro h
    rw [store_noop t d u c db h]
  · intro h
    rw [get_press_release_contents_fst]
    exact foldDb_nodup resolve fetchBody cards db h

/-- Witness for C1: a second commit for an already-present url is a no-op, and
ingesting one concrete card over a one-entry store keeps urls unique. -/
theorem ingestion_idempotent_witness :
    ((store_in_vector_db (some "T") (some "D") "u" "body"
        [{ page_content := "old", title := some "T0", date := some "D0", url := "u" }]).1
      = [{ page_content := "old", title := some "T0", date := some "D0", url := "u" }])
    ∧ (((get_press_release_contents id (fun _ => some "body")
          [{ titleTag := some { text := "T", href := some "u" }, dateTag := some "D" }]
          [{ page_content := "old", title := some "T0", date := some "D0", url := "u" }]).1).map
        Document.url).Nodup :=
  ⟨(ingestion_idempotent id (fun _ => some "body")
      [{ titleTag := some { text := "T", href := some "u" }, dateTag := some "D" }]
      [{ page_content := "old", title := some "T0", date := some "D0", url := "u" }]
      (some "T") (some "D") "u" "body").2.1 (by decide),
   (ingestion_idempotent id (fun _ => some "body")
      [{ titleTag := some { text := "T", href := some "u" }, dateTag := some "D" }]
      [{ page_content := "old", title := some "T0", date := some "D0", url := "u" }]
      (some "T") (some "D") "u" "body").2.2 (by decide)⟩

/-! ## Claim C3: the dedup short-circuit contract -/

/-- C3: `commit_if_new` (the spec's DedupIndex contract) refines
`store_in_vector_db`: both compute the same store; the boolean is `true`
exactly when the article was newly stored (the store changed) and `false`
exactly when it was skipped as a duplicate; and when the url is already
present no embedding computation and no store write is issued. -/
theorem commit_if_new_contract (t d : Option String) (u c : String)
    (db : List Document) :
    ((commit_if_new t d u c db).2 = (store_in_vector_db t d u c db).1)
    ∧ ((commit_if_new t d u c db).1 = true ↔ (store_in_vector_db t d u c db).1 ≠ db)
    ∧ (hasUrl db u = true →
        (commit_if_new t d u c db).1 = false
        ∧ (store_in_vector_db t d u c db).2 = []
        ∧ (store_in_vector_db t d u c db).1 = db) := by
  refine ⟨?_, ?_, ?_⟩
  · unfold commit_if_new store_in_vector_db
    cases h : hasUrl db u <;> simp [h]
  · unfold commit_if_new store_in_vector_db
    cases h : hasUrl db u
    · simp only [h, Bool.false_eq_true, if_false]
      constructor
      · intro _ heq
        have hlen := congrArg List.length heq
        simp at hlen
      · intro _
        trivial
    · simp [h]
  · intro h
    unfold commit_if_new store_in_vector_db
    simp [h]

/-- Witness for C3: committing a url already present returns `false`, issues
no effects, and leaves the store unchanged. -/
theorem commit_if_new_contract_witness :
    ((commit_if_new (some "T") (some "D") "u" "c"
        [{ page_content := "old", title := some "T0", date := some "D0", url := "u" }]).1 = false)
    ∧ ((store_in_vector_db (some "T") (some "D") "u" "c"
        [{ page_content := "old", title := some "T0", date := some "D0", url := "u" }]).2 = [])
    ∧ ((store_in_vector_db (some "T") (some "D") "u" "c"
        [{ page_content := "old", title := some "T0", date := some "D0", url := "u" }]).1
      = [{ page_content := "old", title := some "T0", date := some "D0", url := "u" }]) :=
  (commit_if_new_contract (some "T") (some "D") "u" "c"
    [{ page_content := "old", title := some "T0", date := some "D0", url := "u" }]).2.2 (by decide)

/-! ## Claim C4: candidates with absent body content are dropped -/

/-- C4: for every candidate on a listing page, an absent extracted body
content (no resolvable url, or a fetch/extraction that produced nothing)
leaves both the vector store and the page's result list — and hence the run
snapshot — exactly as they were: the candidate is dropped at the point of
discovery. -/
theorem absent_content_dropped (resolve : String → String)
    (fetchBody : String → Option String) (card : Card)
    (db : List Document) (cs : List PressRec)
    (h : cardContent resolve fetchBody card = none) :
    processCard resolve fetchBody card (db, cs) = (db, cs) := by
  rw [processCard_eq]
  have hs : cardStoreable resolve fetchBody card = none := by
    unfold cardContent at h
    unfold cardStoreable
    cases hu : (extractCandidate resolve card).article_url with
    | none => rfl
    | some u =>
        rw [hu] at h
        have h2 : fetchBody u = none := h
        show (match fetchBody u with
              | none => none
              | some c => if c == "" then none else some (u, c))
            = (none : Option (String × String))
        rw [h2]
  rw [hs]

/-- Witness for C4: a card whose article fetch yields no body changes
nothing. -/
theorem absent_content_dropped_witness :
    processCard id (fun _ => none)
      { titleTag := some { text := "T", href := some "/a" }, dateTag := some "D" }
      ([], []) = ([], []) :=
  absent_content_dropped id (fun _ => none)
    { titleTag := some { text := "T", href := some "/a" }, dateTag := some "D" }
    [] [] (by decide)

/-! ## Claim C5: the page walk stops at the first drained page -/

theorem walkFrom_eq_range (pages : Nat → List PressRec) (maxPage n : Nat) :
    ∀ d page, n - page = d → page ≤ n → n ≤ maxPage →
      (∀ k, page ≤ k → k < n → pages k ≠ []) → pages n = [] →
      walkFrom pages maxPage page = List.range' page (n + 1 - page) := by
  intro d
  induction d with
  | zero =>
      intro page hd hpn hnm hb hn
      have hpe : page = n := by omega
      subst hpe
      rw [walkFrom, dif_pos (by omega : page ≤ maxPage), if_pos hn,
        show page + 1 - page = 1 from by omega]
      rfl
  | succ d ih =>
      intro page hd hpn hnm hb hn
      have hlt : page < n := by omega
      rw [walkFrom, dif_pos (by omega : page ≤ maxPage),
        if_neg (hb page le_rfl hlt),
        ih (page + 1) (by omega) (by omega) hnm
          (fun k hk1 hk2 => hb k (by omega) hk2) hn,
        show n + 1 - page = (n - page) + 1 from by omega, List.range'_succ,
        show n + 1 - (page + 1) = n - page from by omega]

/-- C5: the page walk over the cursor `1..max_page` stops at the first
listing page that yields zero candidates. If every page before `n` yields
candidates and page `n` yields none (with `1 ≤ n ≤ max_page`), the walk
fetches exactly pages `1..n`, regardless of `max_page` being larger: no page
after `n` is fetched. -/
theorem walk_stops_at_drained (pages : Nat → List PressRec) (maxPage n : Nat)
    (h1 : 1 ≤ n) (hmax : n ≤ maxPage)
    (hb : ∀ k, k < n → 1 ≤ k → pages k ≠ [])
    (hn : pages n = []) :
    walkFrom pages maxPage 1 = List.range' 1 n
    ∧ ∀ m ∈ walkFrom pages maxPage 1, m ≤ n := by
  have h := walkFrom_eq_range pages maxPage n (n - 1) 1 (by omega) h1 hmax
    (fun k hk1 hk2 => hb k hk2 hk1) hn
  rw [show n + 1 - 1 = n from by omega] at h
  refine ⟨h, ?_⟩
  intro m hm
  rw [h] at hm
  have := List.mem_range'_1.1 hm
  omega

/-- Witness for C5: with pages 1 and 2 non-empty and page 3 empty, the walk
under ceiling 10 fetches exactly pages 1, 2, 3. -/
theorem walk_stops_at_drained_witness :
    walkFrom (fun k => if k ≤ 2 then
        [{ publication_date := some "D", title := some "T",
           content_url := "u", content := "c" }] else []) 10 1 = List.range' 1 3
    ∧ ∀ m ∈ walkFrom (fun k => if k ≤ 2 then
        [{ publication_date := some "D", title := some "T",
           content_url := "u", content := "c" }] else []) 10 1, m ≤ 3 :=
  walk_stops_at_drained
    (fun k => if k ≤ 2 then
      [{ publication_date := some "D", title := some "T",
         content_url := "u", content := "c" }] else []) 10 3
    (by decide) (by decide) (by decide) (by decide)

/-! ## Claim C6: what gets appended to the page result set -/

theorem processCard_snd (resolve : String → String)
    (fetchBody : String → Option String) (card : Card)
    (st : List Document × List PressRec) :
    (processCard resolve fetchBody card st).2 =
      match cardStoreable resolve fetchBody card with
      | none => st.2
      | some (u, c) => pageAppend (extractCandidate resolve card) u c st.2 := by
  cases hu : (extractCandidate resolve card).article_url with
  | none => simp [processCard, cardStoreable, hu]
  | some u =>
      cases hb : fetchBody u with
      | none => simp [processCard, cardStoreable, hu, hb]
      | some c =>
          by_cases hc : c = "" <;>
            simp [processCard, cardStoreable, pageAppend, hu, hb, hc]

theorem pageAppend_ne_iff (cand : Candidate) (u c : String) (cs : List PressRec) :
    pageAppend cand u c cs ≠ cs ↔ cs.any (fun r => r.content_url == u) = false := by
  unfold pageAppend
  cases ha : cs.any (fun r => r.content_url == u)
  · simp only [Bool.false_eq_true, if_false]
    constructor
    · intro _
      trivial
    · intro _ heq
      have hlen := congrArg List.length heq
      simp at hlen
  · simp

theorem pageAppend_nodup (cand : Candidate) (u c : String) (cs : List PressRec)
    (h : (cs.map PressRec.content_url).Nodup) :
    ((pageAppend cand u c cs).map PressRec.content_url).Nodup := by
  unfold pageAppend
  cases ha : cs.any (fun r => r.content_url == u)
  · simp only [Bool.false_eq_true, if_false, List.map_append, List.map_cons, List.map_nil]
    rw [List.nodup_append]
    refine ⟨h, List.nodup_singleton u, ?_⟩
    intro a hmem hmem2
    rw [List.mem_singleton.1 hmem2] at hmem
    rcases List.mem_map.1 hmem with ⟨r, hr, hru⟩
    have hany : cs.any (fun r => r.content_url == u) = true :=
      List.any_eq_true.2 ⟨r, hr, by simp [hru]⟩
    rw [hany] at ha
    exact Bool.true_eq_false.mp ha
  · simpa using h

theorem foldl_contents_nodup (resolve : String → String)
    (fetchBody : String → Option String) (cards : List Card) :
    ∀ st : List Document × List PressRec, (st.2.map PressRec.content_url).Nodup →
      (((cards.foldl (fun st card => processCard resolve fetchBody card st) st).2).map
        PressRec.content_url).Nodup := by
  induction cards with
  | nil => intro st h; exact h
  | cons card rest ih =>
      intro st h
      simp only [List.foldl_cons]
      apply ih
      rw [processCard_snd]
      cases hs : cardStoreable resolve fetchBody card with
      | none => exact h
      | some uc =>
          obtain ⟨u, c⟩ := uc
          show ((pageAppend (extractCandidate resolve card) u c st.2).map
            PressRec.content_url).Nodup
          exact pageAppend_nodup _ u c st.2 h

/-- Counterexample to C6: a candidate whose url is already in the vector
store (so `store_in_vector_db` skips it — it is not newly stored, and issues
no embedding and no write) is nevertheless appended to the page's result set:
the append is gated on content truthiness, not on the commit outcome. -/
theorem append_despite_skip :
    (processCard sampleResolve sampleFetch sampleCard (preloadedDb, [])).1 = preloadedDb
    ∧ (processCard sampleResolve sampleFetch sampleCard (preloadedDb, [])).2
        = [{ publication_date := some "2024-01-01", title := some "X",
             content_url := "https://www.borgwarner.com/a", content := "hello world" }]
    ∧ (store_in_vector_db (some "X") (some "2024-01-01")
        "https://www.borgwarner.com/a" "hello world" preloadedDb).2 = [] := by
  refine ⟨?_, ?_, ?_⟩ <;> decide

/-- C6 amended: an entry is appended to the page's result set (and thence to
the run snapshot) exactly when the candidate's extracted body content is
present and non-empty and its url is not already in the page's result set —
irrespective of the vector-store state, hence irrespective of whether the
KnowledgeBase commit newly stored the candidate or skipped it as a duplicate;
and within one page's result set no url is ever appended twice. -/
theorem append_guard_characterized (resolve : String → String)
    (fetchBody : String → Option String) :
    (∀ (card : Card) (db₁ db₂ : List Document) (cs : List PressRec),
        (processCard resolve fetchBody card (db₁, cs)).2
          = (processCard resolve fetchBody card (db₂, cs)).2)
    ∧ (∀ (card : Card) (db : List Document) (cs : List PressRec),
        (processCard resolve fetchBody card (db, cs)).2 ≠ cs ↔
          ∃ u c, cardStoreable resolve fetchBody card = some (u, c)
            ∧ cs.any (fun r => r.content_url == u) = false)
    ∧ (∀ (cards : List Card) (db : List Document),
        (((get_press_release_contents resolve fetchBody cards db).2).map
          PressRec.content_url).Nodup) := by
  refine ⟨?_, ?_, ?_⟩
  · intro card db₁ db₂ cs
    rw [processCard_snd, processCard_snd]
  · intro card db cs
    rw [processCard_snd]
    cases hs : cardStoreable resolve fetchBody card with
    | none => simp [hs]
    | some uc =>
        obtain ⟨u, c⟩ := uc
        show pageAppend (extractCandidate resolve card) u c cs ≠ cs ↔ _
        constructor
        · intro hne
          exact ⟨u, c, rfl, (pageAppend_ne_iff _ u c cs).1 hne⟩
        · rintro ⟨u', c', heq, ha⟩
          cases heq
          exact (pageAppend_ne_iff _ u c cs).2 ha
  · intro cards db
    exact foldl_contents_nodup resolve fetchBody cards (db, []) (by simp)

/-- Witness for C6 amended: a card with truthy content and a fresh url is
appended to an empty page result set. -/
theorem append_guard_characterized_witness :
    (processCard id (fun _ => some "b")
      { titleTag := some { text := "T", href := some "u" }, dateTag := some "D" }
      ([], [])).2 ≠ [] :=
  ((append_guard_characterized id (fun _ => some "b")).2.1
    { titleTag := some { text := "T", href := some "u" }, dateTag := some "D" } [] []).mpr
    ⟨"u", "b", by decide, by decide⟩

/-! ## Claim C7: listing-card fields are independently optional -/

/-- C7: in listing extraction every card's fields are independently optional.
The extracted title is absent exactly when the title element is missing and
the extracted date is absent exactly when the date element is missing; the
date element has no influence on the extracted title or url, and the title
element has no influence on the extracted date; a missing (or empty) link
inside a present title element yields an absent url while the title itself is
still extracted; and extraction of one card never aborts the extraction of
the remaining cards. -/
theorem fields_independently_optional (resolve : String → String) (card : Card)
    (cards : List Card) :
    ((extractCandidate resolve card).title = none ↔ card.titleTag = none)
    ∧ ((extractCandidate resolve card).publication_date = none ↔ card.dateTag = none)
    ∧ (∀ d₁ d₂ : Option String,
        (extractCandidate resolve { card with dateTag := d₁ }).title
          = (extractCandidate resolve { card with dateTag := d₂ }).title
        ∧ (extractCandidate resolve { card with dateTag := d₁ }).article_url
          = (extractCandidate resolve { card with dateTag := d₂ }).article_url)
    ∧ (∀ t : Option TitleTag,
        (extractCandidate resolve { card with titleTag := t }).publication_date
          = (extractCandidate resolve card).publication_date)
    ∧ (∀ t : TitleTag, card.titleTag = some t → (t.href = none ∨ t.href = some "") →
        (extractCandidate resolve card).article_url = none
        ∧ (extractCandidate resolve card).title = some (pyReplaceAll '\r' t.text))
    ∧ extract_candidates resolve (card :: cards)
        = extractCandidate resolve card :: extract_candidates resolve cards := by
  refine ⟨?_, ?_, ?_, ?_, ?_, rfl⟩
  · cases h : card.titleTag <;> simp [extractCandidate, h]
  · cases h : card.dateTag <;> simp [extractCandidate, h]
  · intro d₁ d₂
    cases h : card.titleTag <;> simp [extractCandidate, h]
  · intro t
    simp [extractCandidate]
  · rintro t ht (h2 | h2) <;> simp [extractCandidate, ht, h2]

/-- Witness for C7: a title element with no link yields an absent url but a
present title. -/
theorem fields_independently_optional_witness :
    (extractCandidate id
      { titleTag := some { text := "T", href := none }, dateTag := some "D" }).article_url
        = none
    ∧ (extractCandidate id
      { titleTag := some { text := "T", href := none }, dateTag := some "D" }).title
        = some (pyReplaceAll '\r' "T") :=
  (fields_independently_optional id
    { titleTag := some { text := "T", href := none }, dateTag := some "D" } []).2.2.2.2.1
    { text := "T", href := none } rfl (Or.inl rfl)

/-! ## Claim C8: body extraction and embedded line breaks -/

theorem pyReplaceAll_not_mem (c : Char) (s : String) : c ∉ (pyReplaceAll c s).data := by
  intro hmem
  unfold pyReplaceAll at hmem
  rcases List.mem_filter.1 hmem with ⟨_, hne⟩
  simp at hne

theorem pyReplaceAll_mem_sub (c a : Char) (s : String)
    (h : a ∈ (pyReplaceAll c s).data) : a ∈ s.data := by
  unfold pyReplaceAll at h
  exact (List.mem_filter.1 h).1

/-- Counterexample to C8: for the single text node `"a\nb"` (one node with an
embedded newline), the code deletes the newline outright, returning `"ab"`;
collapsing it into a single space, as the claim states, would return
`"a b"`. -/
theorem newline_deleted_not_spaced :
    parse_press_release_content (some ["a\nb"]) = some "ab"
    ∧ extract_body_spec ["a\nb"] = "a b"
    ∧ parse_press_release_content (some ["a\nb"]) ≠ some (extract_body_spec ["a\nb"]) := by
  refine ⟨?_, ?_, ?_⟩ <;> decide

/-- C8 amended: for every article page whose content container is present,
the returned content is the trimmed text nodes joined by single spaces with
every embedded newline and carriage-return character then deleted (removed,
not replaced by a space); consequently the returned content contains no line
breaks. An absent container returns absent. -/
theorem parse_content_no_linebreaks (nodes : List String) (s : String)
    (h : parse_press_release_content (some nodes) = some s) :
    s = pyReplaceAll '\r' (pyReplaceAll '\n'
        (String.intercalate " " (strippedStrings nodes)))
    ∧ '\n' ∉ s.data ∧ '\r' ∉ s.data
    ∧ parse_press_release_content none = none := by
  have hs : s = pyReplaceAll '\r' (pyReplaceAll '\n'
      (String.intercalate " " (strippedStrings nodes))) := by
    unfold parse_press_release_content at h
    exact (Option.some.inj h).symm
  refine ⟨hs, ?_, ?_, rfl⟩
  · rw [hs]
    intro hmem
    exact pyReplaceAll_not_mem '\n' _ (pyReplaceAll_mem_sub '\r' '\n' _ hmem)
  · rw [hs]
    exact pyReplaceAll_not_mem '\r' _

/-- Witness for C8 amended: the single node `"x"` extracts to `"x"`, which is
the join-then-delete normal form and contains no line breaks. -/
theorem parse_content_no_linebreaks_witness :
    ("x" : String) = pyReplaceAll '\r' (pyReplaceAll '\n'
        (String.intercalate " " (strippedStrings ["x"])))
    ∧ '\n' ∉ ("x" : String).data ∧ '\r' ∉ ("x" : String).data
    ∧ parse_press_release_content none = none :=
  parse_content_no_linebreaks ["x"] "x" (by decide)

/-! ## Claim C9: the query contract -/

/-- C9: for every search outcome the query path returns one ordered
`{title, date, url, score}` record per result, in the collaborator's order,
with every score rounded to two decimal places (an integer number of
hundredths); and when the KnowledgeBase is empty — so the similarity search
can only return an empty list — the query returns the empty sequence rather
than an error. -/
theorem query_contract (db : List Document) (search : List (Document × ℚ))
    (hsearch : ∀ p ∈ search, p.1 ∈ db) :
    (db = [] → query_knowledge_base search = [])
    ∧ (∀ r ∈ query_knowledge_base search, ∃ n : ℤ, r.score = (n : ℚ) / 100)
    ∧ ((query_knowledge_base search).map (fun r => (r.title, r.date, r.url))
        = search.map (fun p => (p.1.title, p.1.date, p.1.url))) := by
  refine ⟨?_, ?_, ?_⟩
  · intro hdb
    subst hdb
    have hempty : search = [] := by
      cases search with
      | nil => rfl
      | cons p rest => exact absurd (hsearch p (List.mem_cons_self p rest)) (by simp)
    subst hempty
    rfl
  · intro r hr
    unfold query_knowledge_base at hr
    by_cases he : search.isEmpty
    · rw [if_pos he] at hr
      exact absurd hr (List.not_mem_nil r)
    · rw [if_neg he] at hr
      rcases List.mem_map.1 hr with ⟨p, hp, hpr⟩
      refine ⟨round (p.2 * 100), ?_⟩
      rw [← hpr]
      rfl
  · unfold query_knowledge_base
    by_cases he : search.isEmpty
    · rw [if_pos he, List.isEmpty_iff.1 he]
      rfl
    · rw [if_neg he, List.map_map]
      rfl

/-- Witness for C9: the empty store yields the empty result sequence. -/
theorem query_contract_witness :
    query_knowledge_base [] = []
    ∧ ∀ r ∈ query_knowledge_base [], ∃ n : ℤ, r.score = (n : ℚ) / 100 :=
  ⟨(query_contract [] [] (by simp)).1 rfl,
   (query_contract [] [] (by simp)).2.1⟩

end BorgWarner
